import Mathlib

/-
Verification of the real-time scheduling simulator.

Shallow embedding conventions:
* Python floats (times, execution budgets, capacities) are modelled as ℚ.
  The float literal `1e-9` used by `Job.is_complete` is modelled as the
  exact rational 1/10^9.
* Python object identity for `Job` instances (list membership tests,
  `list.remove`, `==` on objects without `__eq__`) is modelled by indexing
  jobs by their position in the simulator's `task_instances` pool and
  manipulating indices.
* Cosmetic fields (server `name` strings, event `description` strings,
  `__repr__`) are omitted: they never feed back into control flow.
* Mutable methods become functions returning the updated state.
-/

namespace RTS

/-- `task.py`: TaskType enum. -/
inductive TaskType where
  | PERIODIC
  | DYNAMIC
  | APERIODIC
deriving DecidableEq, Repr

/-- `task.py`: ServerType enum (the per-task server affinity tag). -/
inductive ServerType where
  | NONE
  | BACKGROUND
  | POLLER
  | DEFERRABLE
deriving DecidableEq, Repr

/-- `task.py`: class Task.  The `deadline` field stores the value computed by
the constructor (`deadline if deadline > 0 else period`). -/
structure Task where
  id : ℕ
  type : TaskType
  execution_time : ℚ
  period : ℚ
  deadline : ℚ
  release_time : ℚ
  server : ServerType
deriving DecidableEq, Repr

/-- `Task.__init__`: the only computation in the constructor is the
deadline-defaults-to-period rule `self.deadline = deadline if deadline > 0
else period`. -/
def Task.make (id : ℕ) (type : TaskType) (execution_time period deadline
    release_time : ℚ) (server : ServerType) : Task :=
  { id := id, type := type, execution_time := execution_time, period := period,
    deadline := if deadline > 0 then deadline else period,
    release_time := release_time, server := server }

/-- `task.py`: class Job. -/
structure Job where
  task : Task
  remaining : ℚ
  abs_deadline : ℚ
  current_release : ℚ
  started : Bool
  start_time : Option ℚ
  completion_time : Option ℚ
  preemption_count : ℕ
deriving DecidableEq, Repr

/-- `Job.__init__`. -/
def Job.make (task : Task) (release_time : ℚ) : Job :=
  { task := task, remaining := task.execution_time,
    abs_deadline := release_time + task.deadline,
    current_release := release_time, started := false, start_time := none,
    completion_time := none, preemption_count := 0 }

/-- The float literal `1e-9` of `Job.is_complete`, as an exact rational. -/
def completionEps : ℚ := 1 / 1000000000

/-- `Job.is_complete`: `self.remaining <= 1e-9`. -/
def Job.is_complete (j : Job) : Bool := decide (j.remaining ≤ completionEps)

/-- `Job.is_deadline_missed`: `current_time > self.abs_deadline and not
self.is_complete()`. -/
def Job.is_deadline_missed (j : Job) (current_time : ℚ) : Bool :=
  decide (j.abs_deadline < current_time) && ! j.is_complete

/-- `Job.execute`: `actual = min(duration, remaining); remaining =
max(0, remaining - actual)`; also sets `started`.  The returned actual
execution time is recomputed by the caller in `simulator.py`, so only the
state update is modelled. -/
def Job.execute (j : Job) (duration : ℚ) : Job :=
  { j with started := true,
           remaining := max 0 (j.remaining - min duration j.remaining) }

/-- `parser.py`: class TaskSet.  `add_task` appends to `tasks` and to the
partition matching the task's type, so each partition is the subsequence of
`tasks` of that type, in definition order. -/
structure TaskSet where
  tasks : List Task
deriving DecidableEq, Repr

def TaskSet.periodic_tasks (ts : TaskSet) : List Task :=
  ts.tasks.filter (fun t => t.type = TaskType.PERIODIC)

def TaskSet.dynamic_tasks (ts : TaskSet) : List Task :=
  ts.tasks.filter (fun t => t.type = TaskType.DYNAMIC)

def TaskSet.aperiodic_tasks (ts : TaskSet) : List Task :=
  ts.tasks.filter (fun t => t.type = TaskType.APERIODIC)

/-- `parser.py` `TaskFileParser._parse_aperiodic_task`: builds
`Task(TaskType.APERIODIC, float(ei), 0, 0, float(ri), server_type)` —
period 0 and deadline argument 0. -/
def TaskFileParser.parse_aperiodic_task (id : ℕ) (ri ei : ℚ)
    (server : ServerType) : Task :=
  Task.make id TaskType.APERIODIC ei 0 0 ri server

/-! ## Aperiodic servers (`aperiodic_server.py`) -/

/-- `PollingServer` state: shared `AperiodicServer` fields. -/
structure PollingServer where
  capacity : ℚ
  period : ℚ
  current_capacity : ℚ
  last_replenishment_time : ℚ
deriving DecidableEq, Repr

/-- `PollingServer.__init__(capacity, period)`. -/
def PollingServer.make (capacity period : ℚ) : PollingServer :=
  { capacity := capacity, period := period, current_capacity := capacity,
    last_replenishment_time := 0 }

/-- `PollingServer.can_serve`: `current_capacity > 0` (pure). -/
def PollingServer.can_serve (s : PollingServer) (_current_time : ℚ) : Bool :=
  decide (s.current_capacity > 0)

/-- `PollingServer.consume`: subtract then clamp at 0. -/
def PollingServer.consume (s : PollingServer) (execution_time _current_time : ℚ) :
    PollingServer :=
  let c := s.current_capacity - execution_time
  { s with current_capacity := if c < 0 then 0 else c }

/-- `PollingServer.replenish`. -/
def PollingServer.replenish (s : PollingServer) (current_time : ℚ) :
    PollingServer :=
  if current_time - s.last_replenishment_time ≥ s.period then
    { s with current_capacity := s.capacity,
             last_replenishment_time := current_time }
  else s

/-- `AperiodicServer.reset` as inherited by `PollingServer`. -/
def PollingServer.reset (s : PollingServer) : PollingServer :=
  { s with current_capacity := s.capacity, last_replenishment_time := 0 }

/-- `DeferrableServer` state: shared fields plus the `is_active` flag. -/
structure DeferrableServer where
  capacity : ℚ
  period : ℚ
  current_capacity : ℚ
  last_replenishment_time : ℚ
  is_active : Bool
deriving DecidableEq, Repr

/-- `DeferrableServer.__init__(capacity, period)`. -/
def DeferrableServer.make (capacity period : ℚ) : DeferrableServer :=
  { capacity := capacity, period := period, current_capacity := capacity,
    last_replenishment_time := 0, is_active := false }

/-- `DeferrableServer.can_serve`: `current_capacity > 0` (pure). -/
def DeferrableServer.can_serve (s : DeferrableServer) (_current_time : ℚ) :
    Bool :=
  decide (s.current_capacity > 0)

/-- `DeferrableServer.consume`: subtract, clamp at 0, set `is_active`. -/
def DeferrableServer.consume (s : DeferrableServer)
    (execution_time _current_time : ℚ) : DeferrableServer :=
  let c := s.current_capacity - execution_time
  { s with current_capacity := if c < 0 then 0 else c, is_active := true }

/-- `DeferrableServer.replenish`. -/
def DeferrableServer.replenish (s : DeferrableServer) (current_time : ℚ) :
    DeferrableServer :=
  if current_time - s.last_replenishment_time ≥ s.period then
    { s with current_capacity := s.capacity,
             last_replenishment_time := current_time, is_active := false }
  else s

/-- `DeferrableServer.reset`. -/
def DeferrableServer.reset (s : DeferrableServer) : DeferrableServer :=
  { s with current_capacity := s.capacity, last_replenishment_time := 0,
           is_active := false }

/-- `SporadicServer` state: shared fields plus the replenishment queue of
`(time, amount)` pairs. -/
structure SporadicServer where
  capacity : ℚ
  period : ℚ
  current_capacity : ℚ
  last_replenishment_time : ℚ
  replenishment_queue : List (ℚ × ℚ)
deriving DecidableEq, Repr

/-- `SporadicServer.__init__(capacity, period)`. -/
def SporadicServer.make (capacity period : ℚ) : SporadicServer :=
  { capacity := capacity, period := period, current_capacity := capacity,
    last_replenishment_time := 0, replenishment_queue := [] }

/-- `SporadicServer._process_replenishments`: walk the queue in order,
apply every entry with `replenish_time <= current_time` (capacity capped at
`self.capacity`), keep the later entries in order. -/
def SporadicServer.process_replenishments (s : SporadicServer)
    (current_time : ℚ) : SporadicServer :=
  let r := s.replenishment_queue.foldl
    (fun (acc : ℚ × List (ℚ × ℚ)) e =>
      if e.1 ≤ current_time then (min s.capacity (acc.1 + e.2), acc.2)
      else (acc.1, acc.2 ++ [e]))
    (s.current_capacity, [])
  { s with current_capacity := r.1, replenishment_queue := r.2 }

/-- `SporadicServer.can_serve`: processes pending replenishments (a state
change), then tests `current_capacity > 0`. -/
def SporadicServer.can_serve (s : SporadicServer) (current_time : ℚ) :
    Bool × SporadicServer :=
  let s' := s.process_replenishments current_time
  (decide (s'.current_capacity > 0), s')

/-- `SporadicServer.consume`: `consumed = min(execution_time,
current_capacity)`; only a positive consumption decrements capacity and
enqueues the deferred credit `(current_time + period, consumed)`. -/
def SporadicServer.consume (s : SporadicServer)
    (execution_time current_time : ℚ) : SporadicServer :=
  let consumed := min execution_time s.current_capacity
  if consumed > 0 then
    { s with current_capacity := s.current_capacity - consumed,
             replenishment_queue :=
               s.replenishment_queue ++ [(current_time + s.period, consumed)] }
  else s

/-- `SporadicServer.replenish` just processes the pending queue. -/
def SporadicServer.replenish (s : SporadicServer) (current_time : ℚ) :
    SporadicServer :=
  s.process_replenishments current_time

/-- `SporadicServer.reset`. -/
def SporadicServer.reset (s : SporadicServer) : SporadicServer :=
  { s with current_capacity := s.capacity, last_replenishment_time := 0,
           replenishment_queue := [] }

/-- The dynamic dispatch over the four server classes used by the
simulator (`BackgroundServer` carries no state of its own). -/
inductive Server where
  | background
  | polling (s : PollingServer)
  | deferrable (s : DeferrableServer)
  | sporadic (s : SporadicServer)
deriving DecidableEq, Repr

/-- `can_serve` through the base-class interface.  `SporadicServer` mutates
its state here (it processes replenishments), so the updated server is
returned alongside the boolean. -/
def Server.can_serve (s : Server) (current_time : ℚ) : Bool × Server :=
  match s with
  | .background => (true, .background)
  | .polling p => (p.can_serve current_time, .polling p)
  | .deferrable d => (d.can_serve current_time, .deferrable d)
  | .sporadic sp =>
      let r := sp.can_serve current_time
      (r.1, .sporadic r.2)

def Server.consume (s : Server) (execution_time current_time : ℚ) : Server :=
  match s with
  | .background => .background
  | .polling p => .polling (p.consume execution_time current_time)
  | .deferrable d => .deferrable (d.consume execution_time current_time)
  | .sporadic sp => .sporadic (sp.consume execution_time current_time)

def Server.replenish (s : Server) (current_time : ℚ) : Server :=
  match s with
  | .background => .background
  | .polling p => .polling (p.replenish current_time)
  | .deferrable d => .deferrable (d.replenish current_time)
  | .sporadic sp => .sporadic (sp.replenish current_time)

def Server.reset (s : Server) : Server :=
  match s with
  | .background => .background
  | .polling p => .polling p.reset
  | .deferrable d => .deferrable d.reset
  | .sporadic sp => .sporadic sp.reset

/-! ## Python `min(iterable, key=...)` and the scheduler policies
(`scheduler.py`) -/

/-- The running fold of Python's `min` with a key function: the current best
is replaced only on a strictly smaller key, so the first element attaining
the minimum key wins. -/
def minFold {α K : Type} [LinearOrder K] (key : α → K) (a : α)
    (xs : List α) : α :=
  xs.foldl (fun best y => if key y < key best then y else best) a

/-- Python's `min(l, key=key)` guarded by the emptiness test that every
`select_task` performs (`if not ready_queue: return None`). -/
def pymin {α K : Type} [LinearOrder K] (key : α → K) : List α → Option α
  | [] => none
  | x :: xs => some (minFold key x xs)

/-- The first element of `l` (in list order) whose key is minimal over
`l`. -/
def firstMinBy {α K : Type} [LinearOrder K] (key : α → K) (l : List α) :
    Option α :=
  l.find? (fun a => l.all (fun b => decide (key a ≤ key b)))

/-- The comparator key of `RateMonotonicScheduler.select_task`:
`j.task.period if j.task.type in (TaskType.PERIODIC, TaskType.DYNAMIC) else
float('inf')`. -/
def rmKey (j : Job) : WithTop ℚ :=
  if j.task.type = TaskType.PERIODIC ∨ j.task.type = TaskType.DYNAMIC then
    (j.task.period : WithTop ℚ)
  else ⊤

/-- The comparator key of `DeadlineMonotonicScheduler.select_task`:
`j.task.deadline if j.task.type in (TaskType.PERIODIC, TaskType.DYNAMIC)
else float('inf')`. -/
def dmKey (j : Job) : WithTop ℚ :=
  if j.task.type = TaskType.PERIODIC ∨ j.task.type = TaskType.DYNAMIC then
    (j.task.deadline : WithTop ℚ)
  else ⊤

/-- `RateMonotonicScheduler.select_task`. -/
def RateMonotonicScheduler.select_task (ready_queue : List Job) :
    Option Job :=
  pymin rmKey ready_queue

/-- `EarliestDeadlineFirstScheduler.select_task`: key `t.abs_deadline`. -/
def EarliestDeadlineFirstScheduler.select_task (ready_queue : List Job) :
    Option Job :=
  pymin (fun t => t.abs_deadline) ready_queue

/-- `FirstComeFirstServedScheduler.select_task`: key `t.current_release`. -/
def FirstComeFirstServedScheduler.select_task (ready_queue : List Job) :
    Option Job :=
  pymin (fun t => t.current_release) ready_queue

/-- `ShortestJobFirstScheduler.select_task`: key `t.remaining`. -/
def ShortestJobFirstScheduler.select_task (ready_queue : List Job) :
    Option Job :=
  pymin (fun t => t.remaining) ready_queue

/-- `LeastSlackTimeScheduler.select_task`: key `job.abs_deadline -
self.current_time - job.remaining`; the scheduler's `current_time` field is
passed explicitly. -/
def LeastSlackTimeScheduler.select_task (current_time : ℚ)
    (ready_queue : List Job) : Option Job :=
  pymin (fun j => j.abs_deadline - current_time - j.remaining) ready_queue

/-- `DeadlineMonotonicScheduler.select_task`. -/
def DeadlineMonotonicScheduler.select_task (ready_queue : List Job) :
    Option Job :=
  pymin dmKey ready_queue


/-! ## Simulation engine (`simulator.py`) -/

/-- The `event_type` strings of `scheduler.py`/`simulator.py` as an enum
(`START` is used both for the initial engine event and for first execution
of a job). -/
inductive EventKind where
  | START
  | ARRIVAL
  | DEADLINE_MISS
  | PREEMPT
  | CONTEXT_SWITCH
  | COMPLETE
  | IDLE
  | END
deriving DecidableEq, Repr

/-- `ScheduleEvent` with the job identified by its pool index (`none` for
engine-level events); the formatted `description` string is omitted. -/
structure ScheduleEvent where
  time : ℚ
  task : Option ℕ
  event_type : EventKind
deriving DecidableEq, Repr

/-- `SimulationConfig`. -/
structure SimulationConfig where
  simulation_time : ℚ
  time_quantum : ℚ
  preemptive : Bool
  context_switch_overhead : ℚ
deriving DecidableEq, Repr

/-- The scheduling policy selected for the run (`SchedulerFactory`). -/
inductive Policy where
  | RM
  | EDF
  | DM
  | FCFS
  | SJF
  | LST
deriving DecidableEq, Repr

/-- Mutable state of `Simulator` plus the scheduler/server state it drives.
Jobs live in the `pool` (the `task_instances` list) and every other
collection holds pool indices, which models Python's aliasing of `Job`
objects.  `now` is the loop-local `current_time`; the code keeps
`scheduler.current_time` equal to it at every scheduling decision. -/
structure SimState where
  pool : List Job
  ready_queue : List ℕ
  current_task : Option ℕ
  now : ℚ
  schedule_events : List ScheduleEvent
  completed_tasks : List ℕ
  missed_deadlines : List ℕ
  server : Server
deriving DecidableEq, Repr

instance : Inhabited Job :=
  ⟨Job.make (Task.make 0 TaskType.PERIODIC 0 0 0 0 ServerType.NONE) 0⟩

/-- Look a job up by pool index. -/
def jobAt (pool : List Job) (i : ℕ) : Job := pool.getD i default

/-- The per-policy `select_task`, lifted to pool indices (Python passes the
`Job` objects themselves and identifies the result by object identity; an
index is that identity). -/
def Scheduler.select_task (pol : Policy) (current_time : ℚ) (pool : List Job)
    (idxs : List ℕ) : Option ℕ :=
  match pol with
  | .RM => pymin (fun i => rmKey (jobAt pool i)) idxs
  | .EDF => pymin (fun i => (jobAt pool i).abs_deadline) idxs
  | .DM => pymin (fun i => dmKey (jobAt pool i)) idxs
  | .FCFS => pymin (fun i => (jobAt pool i).current_release) idxs
  | .SJF => pymin (fun i => (jobAt pool i).remaining) idxs
  | .LST => pymin
      (fun i => (jobAt pool i).abs_deadline - current_time - (jobAt pool i).remaining)
      idxs

/-- `Simulator._check_arrivals`: admit every pool job whose release time
has passed and that is not already ready, complete, or terminal; emit an
`ARRIVAL` event per admitted job, in pool order. -/
def Simulator.check_arrivals (current_time : ℚ) (s : SimState) : SimState :=
  let arrived := (List.range s.pool.length).filter (fun i =>
    decide ((jobAt s.pool i).current_release ≤ current_time ∧
      i ∉ s.ready_queue ∧
      (jobAt s.pool i).is_complete = false ∧
      i ∉ s.completed_tasks ∧
      i ∉ s.missed_deadlines))
  { s with
    ready_queue := s.ready_queue ++ arrived,
    schedule_events := s.schedule_events ++
      arrived.map (fun i => ScheduleEvent.mk current_time (some i) EventKind.ARRIVAL) }

/-- Body of the `for task in list(self.ready_queue)` loop of
`Simulator._check_deadline_misses`. -/
def missBody (current_time : ℚ) (st : SimState) (i : ℕ) : SimState :=
  if (jobAt st.pool i).is_deadline_missed current_time then
    { st with
      ready_queue := st.ready_queue.erase i,
      missed_deadlines := st.missed_deadlines ++ [i],
      schedule_events := st.schedule_events ++
        [ScheduleEvent.mk current_time (some i) EventKind.DEADLINE_MISS],
      current_task := if st.current_task = some i then none
                      else st.current_task }
  else st

/-- `Simulator._check_deadline_misses`: iterate over a snapshot of the
ready queue, removing and recording every job whose deadline check fires
(`Job.is_deadline_missed` applies to every job, aperiodic included). -/
def Simulator.check_deadline_misses (current_time : ℚ) (s : SimState) :
    SimState :=
  s.ready_queue.foldl (missBody current_time) s

/-- `Simulator._find_next_event_time`. -/
def Simulator.find_next_event_time (cfg : SimulationConfig) (s : SimState)
    (current_time : ℚ) : ℚ :=
  (List.range s.pool.length).foldl (fun next_time i =>
    if (jobAt s.pool i).current_release > current_time ∧
        (jobAt s.pool i).current_release < next_time then
      if i ∉ s.ready_queue ∧ i ∉ s.completed_tasks then
        (jobAt s.pool i).current_release
      else next_time
    else next_time) cfg.simulation_time

/-- Task selection of `Simulator.run` (lines 89–102): partition the ready
queue, prefer periodic/dynamic jobs, otherwise consult the server
(`can_serve` is only called when an aperiodic job is ready, and it may
mutate a sporadic server even when it answers `false`). -/
def Simulator.select_next (pol : Policy) (current_time : ℚ) (s : SimState) :
    Option ℕ × Server :=
  let periodic_ready := s.ready_queue.filter
    (fun i => decide (¬ (jobAt s.pool i).task.type = TaskType.APERIODIC))
  let aperiodic_ready := s.ready_queue.filter
    (fun i => decide ((jobAt s.pool i).task.type = TaskType.APERIODIC))
  if periodic_ready ≠ [] then
    (Scheduler.select_task pol current_time s.pool periodic_ready, s.server)
  else if aperiodic_ready ≠ [] then
    let r := s.server.can_serve current_time
    (if r.1 then Scheduler.select_task pol current_time s.pool aperiodic_ready
     else none, r.2)
  else (none, s.server)

/-- Lines 106–112 of `Simulator.run`: preemption bookkeeping when the
previously running job differs from the selected one. -/
def Simulator.preemptPhase (cfg : SimulationConfig) (i : ℕ) (s0 : SimState) :
    SimState :=
  match s0.current_task with
  | some c =>
    if c ≠ i ∧ cfg.preemptive then
      { s0 with
        schedule_events := s0.schedule_events ++
          [ScheduleEvent.mk s0.now (some c) EventKind.PREEMPT],
        pool := s0.pool.set c
          { jobAt s0.pool c with
            preemption_count := (jobAt s0.pool c).preemption_count + 1 } }
    else s0
  | none => s0

/-- Lines 114–130 of `Simulator.run`: context-switch overhead and the
`START` event on a job's first execution. -/
def Simulator.startPhase (cfg : SimulationConfig) (i : ℕ) (s0 : SimState) :
    SimState :=
  if s0.current_task ≠ some i then
    let s :=
      if s0.current_task ≠ none ∧ cfg.context_switch_overhead > 0 then
        { s0 with
          now := s0.now + cfg.context_switch_overhead,
          schedule_events := s0.schedule_events ++
            [ScheduleEvent.mk (s0.now + cfg.context_switch_overhead) none
              EventKind.CONTEXT_SWITCH] }
      else s0
    if (jobAt s.pool i).start_time = none then
      { s with
        pool := s.pool.set i
          { jobAt s.pool i with start_time := some s.now },
        schedule_events := s.schedule_events ++
          [ScheduleEvent.mk s.now (some i) EventKind.START] }
    else s
  else s0

/-- Lines 132–154 of `Simulator.run`: run one quantum of the selected job,
consume server capacity for aperiodic jobs, advance time, and finish the
job if it completed. -/
def Simulator.execPhase (cfg : SimulationConfig) (i : ℕ) (s0 : SimState) :
    SimState :=
  let s := { s0 with current_task := some i }
  let execution_time := min cfg.time_quantum (jobAt s.pool i).remaining
  let s := { s with pool := s.pool.set i ((jobAt s.pool i).execute execution_time) }
  let s :=
    if (jobAt s.pool i).task.type = TaskType.APERIODIC then
      { s with server := s.server.consume execution_time s.now }
    else s
  let s := { s with now := s.now + execution_time }
  if (jobAt s.pool i).is_complete then
    { s with
      pool := s.pool.set i
        { jobAt s.pool i with completion_time := some s.now },
      ready_queue := s.ready_queue.erase i,
      completed_tasks := s.completed_tasks ++ [i],
      schedule_events := s.schedule_events ++
        [ScheduleEvent.mk s.now (some i) EventKind.COMPLETE],
      current_task := none }
  else s

/-- Lines 105–154 of `Simulator.run`: bookkeeping and execution once a job
`i` has been selected. -/
def Simulator.runSelected (cfg : SimulationConfig) (i : ℕ) (s0 : SimState) :
    SimState :=
  Simulator.execPhase cfg i (Simulator.startPhase cfg i (Simulator.preemptPhase cfg i s0))

/-- Lines 156–172 of `Simulator.run`: the idle branch. -/
def Simulator.idlePhase (cfg : SimulationConfig) (s0 : SimState) : SimState :=
  let s := { s0 with current_task := none }
  let next_event_time := Simulator.find_next_event_time cfg s s.now
  if next_event_time > s.now then
    { s with
      schedule_events := s.schedule_events ++
        [ScheduleEvent.mk s.now none EventKind.IDLE],
      now := next_event_time }
  else
    { s with now := s.now + cfg.time_quantum }

/-- One iteration of the `while current_time < simulation_time` loop of
`Simulator.run`. -/
def Simulator.step (cfg : SimulationConfig) (pol : Policy) (s0 : SimState) :
    SimState :=
  let s := Simulator.check_arrivals s0.now s0
  let s := Simulator.check_deadline_misses s.now s
  let s := { s with server := s.server.replenish s.now }
  let sel := Simulator.select_next pol s.now s
  let s := { s with server := sel.2 }
  match sel.1 with
  | some i => Simulator.runSelected cfg i s
  | none => Simulator.idlePhase cfg s

/-- The simulation loop, fuelled: `fuel` bounds the number of iterations
(the Python loop terminates because time strictly advances whenever
`time_quantum > 0`; all theorems quantify over or instantiate the fuel). -/
def Simulator.runLoop (cfg : SimulationConfig) (pol : Policy) :
    ℕ → SimState → SimState
  | 0, s => s
  | Nat.succ fuel, s =>
    if s.now < cfg.simulation_time then
      Simulator.runLoop cfg pol fuel (Simulator.step cfg pol s)
    else s

/-- `Simulator.run`: the method itself re-initialises everything except the
job pool and the aperiodic server (it calls `scheduler.reset()` and clears
`ready_queue`/`current_task`), so those two are its only inputs besides
the configuration and policy. -/
def Simulator.run (cfg : SimulationConfig) (pol : Policy) (fuel : ℕ)
    (task_instances : List Job) (server : Server) : SimState :=
  let s0 : SimState :=
    { pool := task_instances, ready_queue := [], current_task := none,
      now := 0, schedule_events := [ScheduleEvent.mk 0 none EventKind.START],
      completed_tasks := [], missed_deadlines := [], server := server }
  let s1 := Simulator.runLoop cfg pol fuel s0
  { s1 with schedule_events := s1.schedule_events ++
      [ScheduleEvent.mk s1.now none EventKind.END] }

/-! ## Task instance generation (`Simulator._generate_task_instances`) -/

/-- The `while release_time < simulation_time: ... release_time += period`
loop, with an explicit iteration bound (first argument) so that the
definition is structurally recursive; `genReleases` supplies a bound that
is never reached when `period > 0`. -/
def genReleasesAux (p : ℚ) : ℕ → ℚ → ℚ → List ℚ
  | 0, _, _ => []
  | Nat.succ n, horizon, r =>
    if r < horizon then r :: genReleasesAux p n horizon (r + p)
    else []

/-- Executable natural-number over-approximation of the ceiling of a
rational (`⌈x⌉.toNat`, written with integer division so that the kernel
can evaluate it). -/
def qCeilNat (x : ℚ) : ℕ := (-((-x).num / ((-x).den : ℤ))).toNat

/-- Release times of one periodic task's jobs:
`release_time, release_time + period, …` while `< horizon`.  The iteration
bound is one more than the number of loop iterations whenever
`period > 0`, so the loop is never cut short. -/
def genReleases (horizon p r : ℚ) : List ℚ :=
  genReleasesAux p (qCeilNat ((horizon - r) / p) + 1) horizon r

/-- Ordering of the final `self.task_instances.sort(key=lambda t:
t.current_release)`. -/
def jobLE (a b : Job) : Prop := a.current_release ≤ b.current_release

instance : DecidableRel jobLE := fun a b =>
  inferInstanceAs (Decidable (a.current_release ≤ b.current_release))

instance : IsTotal Job jobLE := ⟨fun a b => le_total a.current_release b.current_release⟩

instance : IsTrans Job jobLE := ⟨fun _ _ _ h h' => le_trans h h'⟩

/-- The pre-sort generation order: all periodic jobs (tasks in partition
order, each task's releases ascending), then one job per dynamic task at
time 0, then one job per aperiodic task at its release time. -/
def Simulator.rawInstances (cfg : SimulationConfig) (ts : TaskSet) :
    List Job :=
  (ts.periodic_tasks.flatMap (fun t =>
      (genReleases cfg.simulation_time t.period t.release_time).map
        (fun r => Job.make t r))) ++
    ts.dynamic_tasks.map (fun t => Job.make t 0) ++
    ts.aperiodic_tasks.map (fun t => Job.make t t.release_time)

/-- `Simulator._generate_task_instances`: build the raw list, then
`list.sort` by `current_release`.  Python's sort is stable; a stable sort
by key is unique, and is modelled by insertion sort with `≤` on the key. -/
def Simulator.generate_task_instances (cfg : SimulationConfig)
    (ts : TaskSet) : List Job :=
  List.insertionSort jobLE (Simulator.rawInstances cfg ts)

/-! ## Schedulability analysis (`Simulator.calculate_utilization`) -/

/-- `Simulator._rm_bound`: `n * (2 ** (1 / n) - 1)`, `1.0` for `n = 0`. -/
noncomputable def Simulator.rm_bound (n : ℕ) : ℝ :=
  if n = 0 then 1 else n * ((2 : ℝ) ^ ((1 : ℝ) / n) - 1)

/-- The dictionary returned by `Simulator.calculate_utilization`. -/
structure UtilizationReport where
  periodic_utilization : ℚ
  dynamic_utilization : ℚ
  total_utilization : ℚ
  schedulable_rm : Prop
  schedulable_edf : Prop

/-- `Simulator.calculate_utilization`: accumulate `execution_time / period`
over the periodic and dynamic partitions; the RM test compares the
periodic-only utilization against `rm_bound(len(periodic_tasks))`, the EDF
test compares the total against 1. -/
def Simulator.calculate_utilization (ts : TaskSet) : UtilizationReport :=
  let periodic_util :=
    ts.periodic_tasks.foldl (fun acc t => acc + t.execution_time / t.period) 0
  let dynamic_util :=
    ts.dynamic_tasks.foldl (fun acc t => acc + t.execution_time / t.period) 0
  let total_util := periodic_util + dynamic_util
  { periodic_utilization := periodic_util,
    dynamic_utilization := dynamic_util,
    total_utilization := total_util,
    schedulable_rm :=
      (periodic_util : ℝ) ≤ Simulator.rm_bound ts.periodic_tasks.length,
    schedulable_edf := total_util ≤ 1 }

/-! ## Auxiliary definitions for the claims -/

/-- A call on the shared `can_serve`/`consume`/`replenish` interface of the
servers. -/
inductive ServerOp where
  | canServe (t : ℚ)
  | consume (a t : ℚ)
  | replenish (t : ℚ)
deriving DecidableEq, Repr

/-- Run a sequence of interface calls on a polling server, collecting the
`can_serve` answers in call order. -/
def PollingServer.runOps : PollingServer → List ServerOp → PollingServer × List Bool
  | s, [] => (s, [])
  | s, ServerOp.canServe t :: ops =>
    let r := PollingServer.runOps s ops
    (r.1, s.can_serve t :: r.2)
  | s, ServerOp.consume a t :: ops => PollingServer.runOps (s.consume a t) ops
  | s, ServerOp.replenish t :: ops => PollingServer.runOps (s.replenish t) ops

/-- Run a sequence of interface calls on a deferrable server, collecting
the `can_serve` answers in call order. -/
def DeferrableServer.runOps : DeferrableServer → List ServerOp → DeferrableServer × List Bool
  | s, [] => (s, [])
  | s, ServerOp.canServe t :: ops =>
    let r := DeferrableServer.runOps s ops
    (r.1, s.can_serve t :: r.2)
  | s, ServerOp.consume a t :: ops => DeferrableServer.runOps (s.consume a t) ops
  | s, ServerOp.replenish t :: ops => DeferrableServer.runOps (s.replenish t) ops

/-- Capacity invariant of the polling server. -/
def PollingServer.capOK (s : PollingServer) : Prop :=
  0 ≤ s.current_capacity ∧ s.current_capacity ≤ s.capacity

/-- Capacity invariant of the deferrable server. -/
def DeferrableServer.capOK (s : DeferrableServer) : Prop :=
  0 ≤ s.current_capacity ∧ s.current_capacity ≤ s.capacity

/-- Capacity invariant of the sporadic server, together with the fact that
every queued replenishment amount is non-negative (which `consume`
guarantees and `_process_replenishments` relies on). -/
def SporadicServer.capOK (s : SporadicServer) : Prop :=
  0 ≤ s.current_capacity ∧ s.current_capacity ≤ s.capacity ∧
    ∀ e ∈ s.replenishment_queue, 0 ≤ e.2

/-- A simulator state holding one ready aperiodic job, served by the
background server. -/
def exStateC6 : SimState :=
  { pool := [Job.make (TaskFileParser.parse_aperiodic_task 1 0 1 ServerType.NONE) 0],
    ready_queue := [0], current_task := none, now := 0, schedule_events := [],
    completed_tasks := [], missed_deadlines := [], server := Server.background }

/-- A task set holding a single dynamic task with execution 3 and period 2
(utilization 3/2) and no periodic task. -/
def exTS3 : TaskSet := ⟨[Task.make 1 TaskType.DYNAMIC 3 2 2 0 ServerType.NONE]⟩

/-- The deadline-miss rule as the specification words it (for comparison
with the code): missed are the ready jobs with `absolute_deadline ≤ now`
that are still incomplete, with Aperiodic jobs exempt. -/
def specMissed (now : ℚ) (pool : List Job) (i : ℕ) : Prop :=
  (jobAt pool i).abs_deadline ≤ now ∧ (jobAt pool i).is_complete = false ∧
    (jobAt pool i).task.type ≠ TaskType.APERIODIC

instance (now : ℚ) (pool : List Job) (i : ℕ) :
    Decidable (specMissed now pool i) :=
  inferInstanceAs (Decidable ((jobAt pool i).abs_deadline ≤ now ∧
    (jobAt pool i).is_complete = false ∧
    (jobAt pool i).task.type ≠ TaskType.APERIODIC))

/-- The specification's description of one deadline-check pass from state
`s` to state `s2`. -/
def specDeadlineCheck (now : ℚ) (s s2 : SimState) : Prop :=
  s2.ready_queue =
    s.ready_queue.filter (fun i => decide (¬ specMissed now s.pool i)) ∧
  s2.missed_deadlines = s.missed_deadlines ++
    s.ready_queue.filter (fun i => decide (specMissed now s.pool i))

instance (now : ℚ) (s s2 : SimState) : Decidable (specDeadlineCheck now s s2) :=
  inferInstanceAs (Decidable ((s2.ready_queue =
      s.ready_queue.filter (fun i => decide (¬ specMissed now s.pool i))) ∧
    (s2.missed_deadlines = s.missed_deadlines ++
      s.ready_queue.filter (fun i => decide (specMissed now s.pool i)))))

/-- A state at time 1 with a ready periodic job whose absolute deadline is
exactly 1 and a ready aperiodic job released at 0 (absolute deadline 0). -/
def exStateC1 : SimState :=
  { pool := [Job.make (Task.make 1 TaskType.PERIODIC 1 10 1 0 ServerType.NONE) 0,
             Job.make (TaskFileParser.parse_aperiodic_task 2 0 1 ServerType.NONE) 0],
    ready_queue := [0, 1], current_task := none, now := 1,
    schedule_events := [], completed_tasks := [], missed_deadlines := [],
    server := Server.background }

/-- The pairwise ordering asserted by the specification: release time
ascending, ties broken by the original task-definition order (the task's
position in `TaskSet.tasks`).  Written from the spec's words, for
comparison with the generated list. -/
def specJobOrder (ts : TaskSet) (j1 j2 : Job) : Prop :=
  j1.current_release < j2.current_release ∨
    (j1.current_release = j2.current_release ∧
      ts.tasks.indexOf j1.task ≤ ts.tasks.indexOf j2.task)

instance (ts : TaskSet) (j1 j2 : Job) : Decidable (specJobOrder ts j1 j2) :=
  inferInstanceAs (Decidable (j1.current_release < j2.current_release ∨
    (j1.current_release = j2.current_release ∧
      ts.tasks.indexOf j1.task ≤ ts.tasks.indexOf j2.task)))

/-- The spec's ordering requirement on a whole instance list. -/
def specOrderedByReleaseThenDefinition (ts : TaskSet) (jobs : List Job) :
    Prop :=
  jobs.Pairwise (specJobOrder ts)

instance (ts : TaskSet) (jobs : List Job) :
    Decidable (specOrderedByReleaseThenDefinition ts jobs) :=
  inferInstanceAs (Decidable (jobs.Pairwise (specJobOrder ts)))

/-- An aperiodic task defined first… -/
def exTaskA5 : Task := TaskFileParser.parse_aperiodic_task 1 0 1 ServerType.NONE

/-- …and a periodic task defined second, both releasing at time 0. -/
def exTaskP5 : Task := Task.make 2 TaskType.PERIODIC 1 10 0 0 ServerType.NONE

/-- The task set listing the aperiodic task before the periodic one. -/
def exTS5 : TaskSet := ⟨[exTaskA5, exTaskP5]⟩

def exCfg5 : SimulationConfig := ⟨5, 1, true, 0⟩

/-- One periodic task with execution 1 and period 10. -/
def exTask7 : Task := Task.make 1 TaskType.PERIODIC 1 10 0 0 ServerType.NONE

def exTS7 : TaskSet := ⟨[exTask7]⟩

/-- Horizon 3, quantum 1, preemptive, no context-switch overhead. -/
def exCfg7 : SimulationConfig := ⟨3, 1, true, 0⟩

/-- A first complete run on the example task set. -/
def exRun7 : SimState :=
  Simulator.run exCfg7 Policy.RM 10
    (Simulator.generate_task_instances exCfg7 exTS7) Server.background

/-! ## Theorems -/

theorem minFold_nil {α K : Type} [LinearOrder K] (key : α → K) (a : α) :
    minFold key a [] = a := rfl

theorem minFold_cons {α K : Type} [LinearOrder K] (key : α → K) (a y : α)
    (ys : List α) :
    minFold key a (y :: ys) =
      minFold key (if key y < key a then y else a) ys := rfl

theorem find_congr {α : Type} (p q : α → Bool) :
    ∀ (l : List α), (∀ a ∈ l, p a = q a) → l.find? p = l.find? q := by
  intro l
  induction l with
  | nil => intro _; rfl
  | cons a l ih =>
    intro h
    have ha := h a (by simp)
    cases hq : q a with
    | true =>
      rw [List.find?_cons_of_pos _ (ha.trans hq),
        List.find?_cons_of_pos _ hq]
    | false =>
      rw [List.find?_cons_of_neg _ (by simp [ha, hq]),
        List.find?_cons_of_neg _ (by simp [hq])]
      exact ih (fun b hb => h b (by simp [hb]))

theorem findP {α : Type} (p : α → Bool) (a : α) (l : List α)
    (h : p a = true) : (a :: l).find? p = some a :=
  List.find?_cons_of_pos _ h

theorem findN {α : Type} (p : α → Bool) (a : α) (l : List α)
    (h : p a = false) : (a :: l).find? p = l.find? p :=
  List.find?_cons_of_neg _ (by simp [h])

theorem minFold_eq_find {α K : Type} [LinearOrder K] (key : α → K) :
    ∀ (xs : List α) (a : α),
      some (minFold key a xs) =
        (a :: xs).find? (fun z => (a :: xs).all (fun b => decide (key z ≤ key b))) := by
  intro xs
  induction xs with
  | nil =>
    intro a
    rw [minFold_nil,
      findP (fun z => ([a]).all fun b => decide (key z ≤ key b)) a [] (by simp)]
  | cons y ys ih =>
    intro a
    rw [minFold_cons]
    by_cases hy : key y < key a
    · rw [if_pos hy, ih y]
      have hfa : ((a :: y :: ys).all fun b => decide (key a ≤ key b)) = false := by
        refine List.all_eq_false.mpr ?_
        exact ⟨y, by simp, by simpa using not_le.mpr hy⟩
      rw [findN (fun z => (a :: y :: ys).all fun b => decide (key z ≤ key b)) a
        (y :: ys) hfa]
      refine find_congr _ _ _ (fun z _ => ?_)
      simp only [List.all_cons]
      by_cases hz : key z ≤ key y
      · have hza : key z ≤ key a := hz.trans hy.le
        simp [hz, hza]
      · simp [hz]
    · rw [if_neg hy]
      have hay : key a ≤ key y := le_of_not_lt hy
      rw [ih a]
      by_cases hpa : ∀ b ∈ ys, key a ≤ key b
      · have h1 : ((a :: ys).all fun b => decide (key a ≤ key b)) = true := by
          simp only [List.all_eq_true, decide_eq_true_eq]
          intro b hb
          rcases List.mem_cons.mp hb with h | h
          · exact h ▸ le_refl _
          · exact hpa b h
        have h2 : ((a :: y :: ys).all fun b => decide (key a ≤ key b)) = true := by
          simp only [List.all_eq_true, decide_eq_true_eq]
          intro b hb
          rcases List.mem_cons.mp hb with h | h
          · exact h ▸ le_refl _
          · rcases List.mem_cons.mp h with h' | h'
            · exact h' ▸ hay
            · exact hpa b h'
        rw [findP (fun z => (a :: ys).all fun b => decide (key z ≤ key b)) a ys h1,
          findP (fun z => (a :: y :: ys).all fun b => decide (key z ≤ key b)) a
            (y :: ys) h2]
      · push_neg at hpa
        obtain ⟨w, hw, hwa⟩ := hpa
        have h1 : ((a :: ys).all fun b => decide (key a ≤ key b)) = false := by
          refine List.all_eq_false.mpr ?_
          exact ⟨w, List.mem_cons_of_mem _ hw, by simpa using not_le.mpr hwa⟩
        have h2 : ((a :: y :: ys).all fun b => decide (key a ≤ key b)) = false := by
          refine List.all_eq_false.mpr ?_
          exact ⟨w, List.mem_cons_of_mem _ (List.mem_cons_of_mem _ hw),
            by simpa using not_le.mpr hwa⟩
        have h3 : ((a :: y :: ys).all fun b => decide (key y ≤ key b)) = false := by
          refine List.all_eq_false.mpr ?_
          exact ⟨w, List.mem_cons_of_mem _ (List.mem_cons_of_mem _ hw),
            by simpa using not_le.mpr (hwa.trans_le hay)⟩
        rw [findN (fun z => (a :: ys).all fun b => decide (key z ≤ key b)) a ys h1,
          findN (fun z => (a :: y :: ys).all fun b => decide (key z ≤ key b)) a
            (y :: ys) h2,
          findN (fun z => (a :: y :: ys).all fun b => decide (key z ≤ key b)) y
            ys h3]
        refine find_congr _ _ _ (fun z _ => ?_)
        simp only [List.all_cons]
        by_cases hz : key z ≤ key a
        · have hzy : key z ≤ key y := hz.trans hay
          simp [hz, hzy]
        · simp [hz]

theorem pymin_eq_firstMinBy {α K : Type} [LinearOrder K] (key : α → K)
    (l : List α) : pymin key l = firstMinBy key l := by
  cases l with
  | nil => rfl
  | cons x xs => exact minFold_eq_find key xs x

theorem pymin_eq_none_iff {α K : Type} [LinearOrder K] (key : α → K)
    (l : List α) : pymin key l = none ↔ l = [] := by
  cases l <;> simp [pymin]

theorem minFold_mem {α K : Type} [LinearOrder K] (key : α → K) :
    ∀ (xs : List α) (a : α), minFold key a xs = a ∨ minFold key a xs ∈ xs := by
  intro xs
  induction xs with
  | nil => intro a; exact Or.inl rfl
  | cons y ys ih =>
    intro a
    rw [minFold_cons]
    by_cases hy : key y < key a
    · rw [if_pos hy]
      rcases ih y with h | h
      · exact Or.inr (by simp [h])
      · exact Or.inr (by simp [h])
    · rw [if_neg hy]
      rcases ih a with h | h
      · exact Or.inl h
      · exact Or.inr (by simp [h])

theorem pymin_mem {α K : Type} [LinearOrder K] (key : α → K) {l : List α}
    {x : α} (h : pymin key l = some x) : x ∈ l := by
  cases l with
  | nil => simp [pymin] at h
  | cons a xs =>
    simp only [pymin, Option.some.injEq] at h
    rcases minFold_mem key xs a with h' | h' <;> rw [← h]
    · simp [h']
    · simp [h']


/-- C4: each of the six scheduler policies returns `none` iff the ready
queue is empty and otherwise returns the first job in ready order that
minimises the policy's key — RM: task period (⊤ for aperiodic jobs), DM:
task relative deadline (⊤ for aperiodic jobs), EDF: job absolute deadline,
FCFS: job release time, SJF: job remaining time, LST:
`abs_deadline − now − remaining`.  The selectors are pure functions, so
the ready list is never mutated. -/
theorem claim_C4_select_task_contract :
    ∀ (ready : List Job) (now : ℚ),
      (RateMonotonicScheduler.select_task ready = none ↔ ready = []) ∧
      RateMonotonicScheduler.select_task ready = firstMinBy rmKey ready ∧
      (DeadlineMonotonicScheduler.select_task ready = none ↔ ready = []) ∧
      DeadlineMonotonicScheduler.select_task ready = firstMinBy dmKey ready ∧
      (EarliestDeadlineFirstScheduler.select_task ready = none ↔ ready = []) ∧
      EarliestDeadlineFirstScheduler.select_task ready =
        firstMinBy (fun t => t.abs_deadline) ready ∧
      (FirstComeFirstServedScheduler.select_task ready = none ↔ ready = []) ∧
      FirstComeFirstServedScheduler.select_task ready =
        firstMinBy (fun t => t.current_release) ready ∧
      (ShortestJobFirstScheduler.select_task ready = none ↔ ready = []) ∧
      ShortestJobFirstScheduler.select_task ready =
        firstMinBy (fun t => t.remaining) ready ∧
      (LeastSlackTimeScheduler.select_task now ready = none ↔ ready = []) ∧
      LeastSlackTimeScheduler.select_task now ready =
        firstMinBy (fun j => j.abs_deadline - now - j.remaining) ready :=
  fun ready now =>
    ⟨pymin_eq_none_iff _ _, pymin_eq_firstMinBy _ _,
     pymin_eq_none_iff _ _, pymin_eq_firstMinBy _ _,
     pymin_eq_none_iff _ _, pymin_eq_firstMinBy _ _,
     pymin_eq_none_iff _ _, pymin_eq_firstMinBy _ _,
     pymin_eq_none_iff _ _, pymin_eq_firstMinBy _ _,
     pymin_eq_none_iff _ _, pymin_eq_firstMinBy _ _⟩

/-- C10: a parsed aperiodic task has `period = 0`, hence the
deadline-defaults-to-period rule gives it `deadline = 0`; each of its jobs
has `abs_deadline` equal to its release time, and while the job is
incomplete `is_deadline_missed t` holds exactly when `t` is strictly
greater than the release time. -/
theorem claim_C10_aperiodic_deadline :
    ∀ (id : ℕ) (ri ei : ℚ) (sv : ServerType) (r t : ℚ),
      (TaskFileParser.parse_aperiodic_task id ri ei sv).period = 0 ∧
      (TaskFileParser.parse_aperiodic_task id ri ei sv).deadline = 0 ∧
      (Job.make (TaskFileParser.parse_aperiodic_task id ri ei sv) r).abs_deadline = r ∧
      ((Job.make (TaskFileParser.parse_aperiodic_task id ri ei sv) r).is_complete = false →
        ((Job.make (TaskFileParser.parse_aperiodic_task id ri ei sv) r).is_deadline_missed t
          = true ↔ r < t)) := by
  intro id ri ei sv r t
  refine ⟨rfl, by simp [TaskFileParser.parse_aperiodic_task, Task.make], ?_, ?_⟩
  · simp [Job.make, TaskFileParser.parse_aperiodic_task, Task.make]
  · intro hinc
    have habs :
        (Job.make (TaskFileParser.parse_aperiodic_task id ri ei sv) r).abs_deadline = r := by
      simp [Job.make, TaskFileParser.parse_aperiodic_task, Task.make]
    simp [Job.is_deadline_missed, hinc, habs]

unseal Rat.add Rat.sub Rat.mul Rat.inv in
/-- C10 witness: the aperiodic task `A 0 1` yields a job released at 0
whose deadline is missed at time 1. -/
theorem claim_C10_witness :
    (Job.make (TaskFileParser.parse_aperiodic_task 1 0 1 ServerType.NONE) 0).is_deadline_missed 1
      = true :=
  ((claim_C10_aperiodic_deadline 1 0 1 ServerType.NONE 0 1).2.2.2 (by decide)).mpr
    (by decide)

theorem runOps_agree :
    ∀ (ops : List ServerOp) (sp : PollingServer) (sd : DeferrableServer),
      sp.capacity = sd.capacity → sp.period = sd.period →
      sp.current_capacity = sd.current_capacity →
      sp.last_replenishment_time = sd.last_replenishment_time →
      (sp.runOps ops).2 = (sd.runOps ops).2 ∧
      (sp.runOps ops).1.capacity = (sd.runOps ops).1.capacity ∧
      (sp.runOps ops).1.period = (sd.runOps ops).1.period ∧
      (sp.runOps ops).1.current_capacity = (sd.runOps ops).1.current_capacity ∧
      (sp.runOps ops).1.last_replenishment_time =
        (sd.runOps ops).1.last_replenishment_time := by
  intro ops
  induction ops with
  | nil =>
    intro sp sd h1 h2 h3 h4
    exact ⟨rfl, h1, h2, h3, h4⟩
  | cons op ops ih =>
    intro sp sd h1 h2 h3 h4
    cases op with
    | canServe t =>
      obtain ⟨g1, g2, g3, g4, g5⟩ := ih sp sd h1 h2 h3 h4
      refine ⟨?_, g2, g3, g4, g5⟩
      simp only [PollingServer.runOps, DeferrableServer.runOps,
        PollingServer.can_serve, DeferrableServer.can_serve, h3, g1]
    | consume a t =>
      exact ih (sp.consume a t) (sd.consume a t) h1 h2 (by
        simp only [PollingServer.consume, DeferrableServer.consume, h3]) h4
    | replenish t =>
      have hcond : (t - sp.last_replenishment_time ≥ sp.period) =
          (t - sd.last_replenishment_time ≥ sd.period) := by rw [h2, h4]
      by_cases hc : t - sp.last_replenishment_time ≥ sp.period
      · exact ih (sp.replenish t) (sd.replenish t)
          (by simp only [PollingServer.replenish, DeferrableServer.replenish,
                if_pos hc, if_pos (hcond ▸ hc)]; exact h1)
          (by simp only [PollingServer.replenish, DeferrableServer.replenish,
                if_pos hc, if_pos (hcond ▸ hc)]; exact h2)
          (by simp only [PollingServer.replenish, DeferrableServer.replenish,
                if_pos hc, if_pos (hcond ▸ hc)]; exact h1)
          (by simp only [PollingServer.replenish, DeferrableServer.replenish,
                if_pos hc, if_pos (hcond ▸ hc)])
      · exact ih (sp.replenish t) (sd.replenish t)
          (by simp only [PollingServer.replenish, DeferrableServer.replenish,
                if_neg hc, if_neg (hcond ▸ hc)]; exact h1)
          (by simp only [PollingServer.replenish, DeferrableServer.replenish,
                if_neg hc, if_neg (hcond ▸ hc)]; exact h2)
          (by simp only [PollingServer.replenish, DeferrableServer.replenish,
                if_neg hc, if_neg (hcond ▸ hc)]; exact h3)
          (by simp only [PollingServer.replenish, DeferrableServer.replenish,
                if_neg hc, if_neg (hcond ▸ hc)]; exact h4)

/-- C9: a polling server and a deferrable server constructed with the same
capacity and period are observationally equivalent on the shared
`can_serve`/`consume`/`replenish` interface: every `can_serve` answer
agrees, and the final `current_capacity` and `last_replenishment_time`
coincide (the deferrable server's extra `is_active` flag never feeds back
into any answer or shared-field update). -/
theorem claim_C9_polling_deferrable_equiv :
    ∀ (ops : List ServerOp) (c p : ℚ),
      ((PollingServer.make c p).runOps ops).2 =
        ((DeferrableServer.make c p).runOps ops).2 ∧
      ((PollingServer.make c p).runOps ops).1.current_capacity =
        ((DeferrableServer.make c p).runOps ops).1.current_capacity ∧
      ((PollingServer.make c p).runOps ops).1.last_replenishment_time =
        ((DeferrableServer.make c p).runOps ops).1.last_replenishment_time := by
  intro ops c p
  obtain ⟨g1, _, _, g4, g5⟩ :=
    runOps_agree ops (PollingServer.make c p) (DeferrableServer.make c p)
      rfl rfl rfl rfl
  exact ⟨g1, g4, g5⟩

theorem processFold_split (cap now : ℚ) :
    ∀ (q : List (ℚ × ℚ)) (cc : ℚ) (kept : List (ℚ × ℚ)),
      (q.foldl (fun (acc : ℚ × List (ℚ × ℚ)) e =>
          if e.1 ≤ now then (min cap (acc.1 + e.2), acc.2)
          else (acc.1, acc.2 ++ [e])) (cc, kept)) =
        ((q.filter (fun e => decide (e.1 ≤ now))).foldl
            (fun c e => min cap (c + e.2)) cc,
          kept ++ q.filter (fun e => decide (¬ e.1 ≤ now))) := by
  intro q
  induction q with
  | nil => intro cc kept; simp
  | cons e q ih =>
    intro cc kept
    by_cases he : e.1 ≤ now
    · simp only [List.foldl_cons, if_pos he, List.filter_cons,
        decide_eq_true he, ih]
      simp [he]
    · simp only [List.foldl_cons, if_neg he, List.filter_cons, ih]
      simp [he]

unseal Rat.add Rat.sub Rat.mul Rat.inv in
/-- C2 counterexample: on a sporadic server with capacity 2 and period 5,
`consume(3, 0)` enqueues the deferred credit `(5, 2)` — the clipped amount
`min(3, current_capacity)` — and not the credit `(5, 3)` of the requested
amount `a = 3` that the claim asserts. -/
theorem claim_C2_counterexample :
    ((SporadicServer.make 2 5).consume 3 0).replenishment_queue = [(0 + 5, 2)] ∧
      ¬ ((SporadicServer.make 2 5).consume 3 0).replenishment_queue
          = [(0 + 5, 3)] := by
  constructor
  · decide
  · decide

/-- C2 (amended): `consume(a, t)` on the sporadic server immediately
decreases `current_capacity` by `c = min(a, current_capacity)` and, when
`c > 0`, pushes the deferred credit `(t + period, c)` — the clipped amount,
not `a` — onto the pending queue (nothing is queued when `c = 0`); every
`can_serve(now)`/`replenish(now)` runs `_process_replenishments`, which
applies (adding to capacity, capped at `capacity`) and removes exactly the
queued entries with scheduled time `≤ now`, folding them in queue order,
and keeps the later entries queued. -/
theorem claim_C2_amended :
    ∀ (s : SporadicServer) (a t now : ℚ), 0 ≤ a → 0 ≤ s.current_capacity →
      ((s.consume a t).current_capacity
          = s.current_capacity - min a s.current_capacity ∧
        (s.consume a t).replenishment_queue =
          (if 0 < min a s.current_capacity then
            s.replenishment_queue ++ [(t + s.period, min a s.current_capacity)]
          else s.replenishment_queue) ∧
        (s.consume a t).capacity = s.capacity ∧
        (s.consume a t).period = s.period) ∧
      ((s.process_replenishments now).replenishment_queue =
          s.replenishment_queue.filter (fun e => decide (¬ e.1 ≤ now)) ∧
        (s.process_replenishments now).current_capacity =
          (s.replenishment_queue.filter (fun e => decide (e.1 ≤ now))).foldl
            (fun c e => min s.capacity (c + e.2)) s.current_capacity ∧
        (s.can_serve now).2 = s.process_replenishments now ∧
        (s.can_serve now).1
          = decide ((s.process_replenishments now).current_capacity > 0) ∧
        s.replenish now = s.process_replenishments now) := by
  intro s a t now ha hcc
  constructor
  · by_cases h : 0 < min a s.current_capacity
    · simp [SporadicServer.consume, h]
    · have h0 : min a s.current_capacity = 0 :=
        le_antisymm (not_lt.mp h) (le_min ha hcc)
      simp [SporadicServer.consume, h, h0]
  · have hp := processFold_split s.capacity now s.replenishment_queue
      s.current_capacity []
    refine ⟨?_, ?_, rfl, rfl, rfl⟩
    · simp only [SporadicServer.process_replenishments, hp, List.nil_append]
    · simp only [SporadicServer.process_replenishments, hp]

unseal Rat.add Rat.sub Rat.mul Rat.inv in
/-- C2 witness: consuming 1 at time 0 from a fresh capacity-2 sporadic
server leaves capacity `2 - min 1 2`. -/
theorem claim_C2_witness :
    ((SporadicServer.make 2 5).consume 1 0).current_capacity =
      (SporadicServer.make 2 5).current_capacity -
        min 1 (SporadicServer.make 2 5).current_capacity :=
  (claim_C2_amended (SporadicServer.make 2 5) 1 0 6 (by decide) (by decide)).1.1

theorem processFold_bounds (cap now : ℚ) (hcap : 0 ≤ cap) :
    ∀ (q : List (ℚ × ℚ)) (acc : ℚ × List (ℚ × ℚ)),
      0 ≤ acc.1 → acc.1 ≤ cap → (∀ e ∈ q, 0 ≤ e.2) → (∀ e ∈ acc.2, 0 ≤ e.2) →
      0 ≤ (q.foldl (fun (acc : ℚ × List (ℚ × ℚ)) e =>
          if e.1 ≤ now then (min cap (acc.1 + e.2), acc.2)
          else (acc.1, acc.2 ++ [e])) acc).1 ∧
      (q.foldl (fun (acc : ℚ × List (ℚ × ℚ)) e =>
          if e.1 ≤ now then (min cap (acc.1 + e.2), acc.2)
          else (acc.1, acc.2 ++ [e])) acc).1 ≤ cap ∧
      ∀ e ∈ (q.foldl (fun (acc : ℚ × List (ℚ × ℚ)) e =>
          if e.1 ≤ now then (min cap (acc.1 + e.2), acc.2)
          else (acc.1, acc.2 ++ [e])) acc).2, 0 ≤ e.2 := by
  intro q
  induction q with
  | nil => intro acc h1 h2 _ h4; exact ⟨h1, h2, h4⟩
  | cons x rest ih =>
    intro acc h1 h2 h3 h4
    by_cases hx : x.1 ≤ now
    · simp only [List.foldl_cons, if_pos hx]
      refine ih _ ?_ ?_ (fun y hy => h3 y (by simp [hy])) h4
      · exact le_min hcap (add_nonneg h1 (h3 x (by simp)))
      · exact min_le_left _ _
    · simp only [List.foldl_cons, if_neg hx]
      refine ih _ h1 h2 (fun y hy => h3 y (by simp [hy])) ?_
      intro y hy
      rcases List.mem_append.mp hy with hy | hy
      · exact h4 y hy
      · rcases List.mem_singleton.mp hy with rfl
        exact h3 y (by simp)

/-- C8: for the polling, deferrable and sporadic servers built with
positive capacity and period, `0 ≤ current_capacity ≤ capacity` holds
initially and is preserved by `consume` with non-negative execution time,
by `replenish`, by `reset`, and by `can_serve` (which is pure for polling
and deferrable servers and processes pending replenishments for the
sporadic one); the sporadic invariant also tracks that all queued
replenishment amounts are non-negative. -/
theorem claim_C8_capacity_invariant :
    ∀ (c p e t : ℚ), 0 < c → 0 < p → 0 ≤ e →
      ((PollingServer.make c p).capOK ∧ (DeferrableServer.make c p).capOK ∧
        (SporadicServer.make c p).capOK) ∧
      (∀ s : PollingServer, s.capOK →
        (s.consume e t).capOK ∧ (s.replenish t).capOK ∧ s.reset.capOK) ∧
      (∀ s : DeferrableServer, s.capOK →
        (s.consume e t).capOK ∧ (s.replenish t).capOK ∧ s.reset.capOK) ∧
      (∀ s : SporadicServer, s.capOK →
        (s.consume e t).capOK ∧ (s.replenish t).capOK ∧
        ((s.can_serve t).2).capOK ∧ s.reset.capOK) := by
  intro c p e t hc hp he
  refine ⟨⟨⟨hc.le, le_refl c⟩, ⟨hc.le, le_refl c⟩,
    ⟨hc.le, le_refl c, by simp [SporadicServer.make]⟩⟩, ?_, ?_, ?_⟩
  · intro s hs
    obtain ⟨h1, h2⟩ := hs
    refine ⟨⟨?_, ?_⟩, ?_, ?_⟩
    · simp only [PollingServer.consume]
      split
      · exact le_refl 0
      · linarith [not_lt.mp (by assumption : ¬ s.current_capacity - e < 0)]
    · simp only [PollingServer.consume]
      split
      · exact le_trans h1 h2
      · linarith
    · simp only [PollingServer.replenish]
      split
      · exact ⟨le_trans h1 h2, le_refl _⟩
      · exact ⟨h1, h2⟩
    · exact ⟨le_trans h1 h2, le_refl _⟩
  · intro s hs
    obtain ⟨h1, h2⟩ := hs
    refine ⟨⟨?_, ?_⟩, ?_, ?_⟩
    · simp only [DeferrableServer.consume]
      split
      · exact le_refl 0
      · linarith [not_lt.mp (by assumption : ¬ s.current_capacity - e < 0)]
    · simp only [DeferrableServer.consume]
      split
      · exact le_trans h1 h2
      · linarith
    · simp only [DeferrableServer.replenish]
      split
      · exact ⟨le_trans h1 h2, le_refl _⟩
      · exact ⟨h1, h2⟩
    · exact ⟨le_trans h1 h2, le_refl _⟩
  · intro s hs
    obtain ⟨h1, h2, h3⟩ := hs
    have hscap : 0 ≤ s.capacity := le_trans h1 h2
    have hproc : (s.process_replenishments t).capOK := by
      obtain ⟨g1, g2, g3⟩ := processFold_bounds s.capacity t hscap
        s.replenishment_queue (s.current_capacity, []) h1 h2 h3
        (by intro y hy; cases hy)
      exact ⟨g1, g2, g3⟩
    refine ⟨?_, hproc, hproc, ⟨hscap, le_refl _, by simp [SporadicServer.reset]⟩⟩
    simp only [SporadicServer.consume]
    split
    · refine ⟨?_, ?_, ?_⟩
      · exact sub_nonneg.mpr (min_le_right e s.current_capacity)
      · show s.current_capacity - min e s.current_capacity ≤ s.capacity
        linarith [le_min he h1]
      · intro y hy
        rcases List.mem_append.mp hy with hy | hy
        · exact h3 y hy
        · rcases List.mem_singleton.mp hy with rfl
          exact le_min he h1
    · exact ⟨h1, h2, h3⟩

/-- C8 witness: a fresh polling server with capacity 1 and period 1
satisfies the capacity invariant. -/
theorem claim_C8_witness : (PollingServer.make 1 1).capOK :=
  (claim_C8_capacity_invariant 1 1 0 0 (by decide) (by decide) (by decide)).1.1

theorem select_task_mem {pol : Policy} {current_time : ℚ} {pool : List Job}
    {idxs : List ℕ} {i : ℕ}
    (h : Scheduler.select_task pol current_time pool idxs = some i) :
    i ∈ idxs := by
  cases pol <;> exact pymin_mem _ h

/-- C6: whenever the engine's selection step picks an aperiodic job, the
ready queue contains no periodic or dynamic job (its non-aperiodic filter
is empty) and the server's `can_serve(now)` answer is `true`; so a
deadline-bearing ready job is never bypassed for aperiodic work. -/
theorem claim_C6_aperiodic_selection :
    ∀ (pol : Policy) (now : ℚ) (s : SimState) (i : ℕ) (sv : Server),
      Simulator.select_next pol now s = (some i, sv) →
      (jobAt s.pool i).task.type = TaskType.APERIODIC →
      s.ready_queue.filter
          (fun x => decide (¬ (jobAt s.pool x).task.type = TaskType.APERIODIC)) = []
        ∧ (s.server.can_serve now).1 = true := by
  intro pol now s i sv hsel htype
  by_cases hper : s.ready_queue.filter
      (fun x => decide (¬ (jobAt s.pool x).task.type = TaskType.APERIODIC)) = []
  · refine ⟨hper, ?_⟩
    unfold Simulator.select_next at hsel
    rw [if_neg (by simpa using hper)] at hsel
    by_cases hape : s.ready_queue.filter
        (fun x => decide ((jobAt s.pool x).task.type = TaskType.APERIODIC)) = []
    · rw [if_neg (by simpa using hape)] at hsel
      exact absurd (congrArg Prod.fst hsel) (by simp)
    · rw [if_pos (by simpa using hape)] at hsel
      simp only [Prod.mk.injEq] at hsel
      obtain ⟨h1, _⟩ := hsel
      by_cases hcs : (s.server.can_serve now).1 = true
      · exact hcs
      · rw [Bool.not_eq_true] at hcs
        rw [hcs] at h1
        simp at h1
  · exfalso
    unfold Simulator.select_next at hsel
    rw [if_pos (by simpa using hper)] at hsel
    have h1 := congrArg Prod.fst hsel
    have hmem := select_task_mem h1
    have := List.of_mem_filter hmem
    simp only [decide_eq_true_eq] at this
    exact this htype

unseal Rat.add Rat.sub Rat.mul Rat.inv in
/-- C6 witness: with a lone ready aperiodic job and the background server,
the selection step picks it, the non-aperiodic filter is empty and
`can_serve` answers `true`. -/
theorem claim_C6_witness :
    exStateC6.ready_queue.filter
        (fun x => decide (¬ (jobAt exStateC6.pool x).task.type = TaskType.APERIODIC)) = []
      ∧ (exStateC6.server.can_serve 0).1 = true :=
  claim_C6_aperiodic_selection Policy.RM 0 exStateC6 0 Server.background
    (by decide) (by decide)

theorem foldl_util_sum :
    ∀ (l : List Task) (acc : ℚ),
      l.foldl (fun acc t => acc + t.execution_time / t.period) acc =
        acc + (l.map (fun t => t.execution_time / t.period)).sum := by
  intro l
  induction l with
  | nil => intro acc; simp
  | cons t l ih => intro acc; simp [ih, add_assoc]

/-- C3 (amended): `calculate_utilization` sums `execution_time / period`
separately over the periodic and the dynamic partitions and reports their
sum as the total; `schedulable_edf` holds iff the total utilization is at
most 1; but `schedulable_rm` compares only the periodic utilization
against `rm_bound(n)` where `n` counts only the Periodic tasks — dynamic
tasks are excluded from the RM test.  `rm_bound 0 = 1` and
`rm_bound n = n·(2^(1/n) − 1)` for `n ≠ 0`. -/
theorem claim_C3_amended :
    ∀ ts : TaskSet,
      (Simulator.calculate_utilization ts).periodic_utilization =
        (ts.periodic_tasks.map (fun t => t.execution_time / t.period)).sum ∧
      (Simulator.calculate_utilization ts).dynamic_utilization =
        (ts.dynamic_tasks.map (fun t => t.execution_time / t.period)).sum ∧
      (Simulator.calculate_utilization ts).total_utilization =
        (ts.periodic_tasks.map (fun t => t.execution_time / t.period)).sum +
          (ts.dynamic_tasks.map (fun t => t.execution_time / t.period)).sum ∧
      ((Simulator.calculate_utilization ts).schedulable_rm ↔
        (((Simulator.calculate_utilization ts).periodic_utilization : ℝ) ≤
          Simulator.rm_bound ts.periodic_tasks.length)) ∧
      ((Simulator.calculate_utilization ts).schedulable_edf ↔
        (Simulator.calculate_utilization ts).total_utilization ≤ 1) ∧
      Simulator.rm_bound 0 = 1 ∧
      (∀ n : ℕ, n ≠ 0 →
        Simulator.rm_bound n = (n : ℝ) * ((2 : ℝ) ^ ((1 : ℝ) / (n : ℝ)) - 1)) := by
  intro ts
  refine ⟨?_, ?_, ?_, Iff.rfl, Iff.rfl, by simp [Simulator.rm_bound], ?_⟩
  · rw [show (Simulator.calculate_utilization ts).periodic_utilization =
      ts.periodic_tasks.foldl (fun acc t => acc + t.execution_time / t.period) 0
      from rfl, foldl_util_sum, zero_add]
  · rw [show (Simulator.calculate_utilization ts).dynamic_utilization =
      ts.dynamic_tasks.foldl (fun acc t => acc + t.execution_time / t.period) 0
      from rfl, foldl_util_sum, zero_add]
  · rw [show (Simulator.calculate_utilization ts).total_utilization =
      ts.periodic_tasks.foldl (fun acc t => acc + t.execution_time / t.period) 0 +
        ts.dynamic_tasks.foldl (fun acc t => acc + t.execution_time / t.period) 0
      from rfl, foldl_util_sum, foldl_util_sum, zero_add, zero_add]
  · intro n hn
    simp [Simulator.rm_bound, hn]

/-- C3 counterexample: on a task set with no periodic task and one dynamic
task of utilization 3/2, the code reports `schedulable_rm = true`
(periodic-only utilization 0 against `rm_bound(0) = 1`) while the claim's
formula — total utilization against `rm_bound` of the number of
deadline-bearing tasks — is false, since `3/2 > rm_bound(1) = 1`. -/
theorem claim_C3_counterexample :
    (Simulator.calculate_utilization exTS3).schedulable_rm ∧
      ¬ (((Simulator.calculate_utilization exTS3).total_utilization : ℝ) ≤
          Simulator.rm_bound
            (exTS3.periodic_tasks.length + exTS3.dynamic_tasks.length)) := by
  constructor
  · show ((exTS3.periodic_tasks.foldl
        (fun acc t => acc + t.execution_time / t.period) 0 : ℚ) : ℝ) ≤
      Simulator.rm_bound exTS3.periodic_tasks.length
    rw [show exTS3.periodic_tasks = [] from rfl]
    simp [Simulator.rm_bound]
  · have htot : (Simulator.calculate_utilization exTS3).total_utilization =
        (0 : ℚ) + (0 + 3 / 2) := rfl
    have hlen : exTS3.periodic_tasks.length + exTS3.dynamic_tasks.length = 1 := rfl
    rw [htot, hlen]
    have hrm : Simulator.rm_bound 1 = 1 := by
      norm_num [Simulator.rm_bound, Real.rpow_one]
    rw [hrm]
    push_cast
    norm_num

/-- C3 witness: the `rm_bound` formula at `n = 2`. -/
theorem claim_C3_witness :
    Simulator.rm_bound 2 = ((2 : ℕ) : ℝ) * ((2 : ℝ) ^ ((1 : ℝ) / ((2 : ℕ) : ℝ)) - 1) :=
  (claim_C3_amended ⟨[]⟩).2.2.2.2.2.2 2 (by decide)

theorem missFold_spec (now : ℚ) :
    ∀ (l kept : List ℕ) (st : SimState),
      st.ready_queue = kept ++ l →
      (∀ i ∈ kept, (jobAt st.pool i).is_deadline_missed now = false) →
      (l.foldl (missBody now) st).pool = st.pool ∧
      (l.foldl (missBody now) st).server = st.server ∧
      (l.foldl (missBody now) st).now = st.now ∧
      (l.foldl (missBody now) st).completed_tasks = st.completed_tasks ∧
      (l.foldl (missBody now) st).ready_queue =
        kept ++ l.filter (fun i => !(jobAt st.pool i).is_deadline_missed now) ∧
      (l.foldl (missBody now) st).missed_deadlines =
        st.missed_deadlines ++
          l.filter (fun i => (jobAt st.pool i).is_deadline_missed now) ∧
      (l.foldl (missBody now) st).schedule_events =
        st.schedule_events ++
          (l.filter (fun i => (jobAt st.pool i).is_deadline_missed now)).map
            (fun i => ScheduleEvent.mk now (some i) EventKind.DEADLINE_MISS) ∧
      (l.foldl (missBody now) st).current_task =
        (match st.current_task with
         | none => none
         | some c =>
             if (jobAt st.pool c).is_deadline_missed now = true ∧ c ∈ l then none
             else some c) := by
  intro l
  induction l with
  | nil =>
    intro kept st hready hkept
    refine ⟨rfl, rfl, rfl, rfl, by simpa using hready, by simp, by simp, ?_⟩
    rcases hc : st.current_task with _ | c <;> simp [hc]
  | cons a l ih =>
    intro kept st hready hkept
    rw [List.foldl_cons]
    by_cases hm : (jobAt st.pool a).is_deadline_missed now = true
    · have hanotkept : a ∉ kept := by
        intro hak
        rw [hkept a hak] at hm
        exact absurd hm (by simp)
      have hbody : missBody now st a =
          { st with ready_queue := st.ready_queue.erase a,
                    missed_deadlines := st.missed_deadlines ++ [a],
                    schedule_events := st.schedule_events ++
                      [ScheduleEvent.mk now (some a) EventKind.DEADLINE_MISS],
                    current_task := if st.current_task = some a then none
                                    else st.current_task } := by
        unfold missBody
        rw [if_pos hm]
      have hready' : (missBody now st a).ready_queue = kept ++ l := by
        rw [hbody]
        show st.ready_queue.erase a = kept ++ l
        rw [hready, List.erase_append_right _ hanotkept, List.erase_cons_head]
      have hpool' : (missBody now st a).pool = st.pool := by rw [hbody]
      obtain ⟨g1, g2, g3, g4, g5, g6, g7, g8⟩ :=
        ih kept (missBody now st a) hready'
          (fun i hi => by rw [hpool']; exact hkept i hi)
      rw [hpool'] at g5 g6 g7 g8
      refine ⟨g1.trans hpool', g2.trans (by rw [hbody]), g3.trans (by rw [hbody]),
        g4.trans (by rw [hbody]), ?_, ?_, ?_, ?_⟩
      · rw [g5, List.filter_cons_of_neg (by simp [hm])]
      · rw [g6, List.filter_cons_of_pos (by simp [hm])]
        have hmd : (missBody now st a).missed_deadlines =
            st.missed_deadlines ++ [a] := by rw [hbody]
        rw [hmd]
        simp
      · rw [g7, List.filter_cons_of_pos (by simp [hm])]
        have hev : (missBody now st a).schedule_events =
            st.schedule_events ++
              [ScheduleEvent.mk now (some a) EventKind.DEADLINE_MISS] := by
          rw [hbody]
        rw [hev]
        simp
      · rw [g8]
        rcases hc : st.current_task with _ | c
        · rw [hbody]
          show (match (if st.current_task = some a then none else st.current_task :
              Option ℕ) with
            | none => none
            | some c =>
                if (jobAt st.pool c).is_deadline_missed now = true ∧ c ∈ l then none
                else some c) = _
          simp [hc]
        · by_cases hca : c = a
          · subst hca
            rw [hbody]
            show (match (if st.current_task = some c then none else st.current_task :
                Option ℕ) with
              | none => none
              | some d =>
                  if (jobAt st.pool d).is_deadline_missed now = true ∧ d ∈ l then none
                  else some d) = _
            simp [hc, hm]
          · rw [hbody]
            show (match (if st.current_task = some a then none else st.current_task :
                Option ℕ) with
              | none => none
              | some d =>
                  if (jobAt st.pool d).is_deadline_missed now = true ∧ d ∈ l then none
                  else some d) = _
            simp only [hc, if_neg (by simp [hca] : ¬ (some c : Option ℕ) = some a)]
            show (if (jobAt st.pool c).is_deadline_missed now = true ∧ c ∈ l then none
                else some c) =
              (if (jobAt st.pool c).is_deadline_missed now = true ∧ c ∈ a :: l then none
                else some c)
            by_cases hcl : (jobAt st.pool c).is_deadline_missed now = true ∧ c ∈ l
            · rw [if_pos hcl, if_pos ⟨hcl.1, by simp [hcl.2]⟩]
            · rw [if_neg hcl, if_neg ?_]
              intro hcl2
              exact hcl ⟨hcl2.1, by
                rcases List.mem_cons.mp hcl2.2 with h | h
                · exact absurd h hca
                · exact h⟩
    · have hm' : (jobAt st.pool a).is_deadline_missed now = false := by
        revert hm
        cases (jobAt st.pool a).is_deadline_missed now <;> simp
      have hbody : missBody now st a = st := by
        unfold missBody
        rw [if_neg hm]
      rw [hbody]
      obtain ⟨g1, g2, g3, g4, g5, g6, g7, g8⟩ :=
        ih (kept ++ [a]) st
          (by rw [hready]; simp)
          (by
            intro i hi
            rcases List.mem_append.mp hi with h | h
            · exact hkept i h
            · rcases List.mem_singleton.mp h with rfl
              exact hm')
      refine ⟨g1, g2, g3, g4, ?_, ?_, ?_, ?_⟩
      · rw [g5, List.filter_cons_of_pos (by simp [hm'])]
        simp
      · rw [g6, List.filter_cons_of_neg (by simp [hm'])]
      · rw [g7, List.filter_cons_of_neg (by simp [hm'])]
      · rw [g8]
        rcases hc : st.current_task with _ | c
        · simp
        · by_cases hca : c = a
          · subst hca
            simp [hm']
          · show (if (jobAt st.pool c).is_deadline_missed now = true ∧ c ∈ l then none
                else some c) =
              (if (jobAt st.pool c).is_deadline_missed now = true ∧ c ∈ a :: l then none
                else some c)
            by_cases hcl : (jobAt st.pool c).is_deadline_missed now = true ∧ c ∈ l
            · rw [if_pos hcl, if_pos ⟨hcl.1, by simp [hcl.2]⟩]
            · rw [if_neg hcl, if_neg ?_]
              intro hcl2
              exact hcl ⟨hcl2.1, by
                rcases List.mem_cons.mp hcl2.2 with h | h
                · exact absurd h hca
                · exact h⟩

theorem is_deadline_missed_eq (j : Job) (now : ℚ) :
    j.is_deadline_missed now =
      decide (j.abs_deadline < now ∧ completionEps < j.remaining) := by
  by_cases h1 : j.abs_deadline < now
  · by_cases h2 : completionEps < j.remaining
    · simp [Job.is_deadline_missed, Job.is_complete, h1, h2, not_le.mpr h2]
    · simp [Job.is_deadline_missed, Job.is_complete, h1, h2, not_lt.mp h2]
  · simp [Job.is_deadline_missed, Job.is_complete, h1]

/-- C1 (amended): the deadline-miss pass removes from the ready queue and
records as missed exactly those ready jobs whose `absolute_deadline` is
strictly below `now` and whose remaining time exceeds the completion
epsilon `1e-9`, emitting one `DEADLINE_MISS` event per removed job in
ready order; the job pool itself is unchanged.  No job is exempt: the
check applies to Aperiodic jobs exactly as to the others. -/
theorem claim_C1_amended :
    ∀ (now : ℚ) (s : SimState),
      (Simulator.check_deadline_misses now s).pool = s.pool ∧
      (Simulator.check_deadline_misses now s).ready_queue =
        s.ready_queue.filter (fun i =>
          decide (¬ ((jobAt s.pool i).abs_deadline < now ∧
            completionEps < (jobAt s.pool i).remaining))) ∧
      (Simulator.check_deadline_misses now s).missed_deadlines =
        s.missed_deadlines ++ s.ready_queue.filter (fun i =>
          decide ((jobAt s.pool i).abs_deadline < now ∧
            completionEps < (jobAt s.pool i).remaining)) ∧
      (Simulator.check_deadline_misses now s).schedule_events =
        s.schedule_events ++ (s.ready_queue.filter (fun i =>
          decide ((jobAt s.pool i).abs_deadline < now ∧
            completionEps < (jobAt s.pool i).remaining))).map
          (fun i => ScheduleEvent.mk now (some i) EventKind.DEADLINE_MISS) := by
  intro now s
  obtain ⟨g1, _, _, _, g5, g6, g7, _⟩ :=
    missFold_spec now s.ready_queue [] s rfl (fun i hi => absurd hi (by simp))
  have hpos : s.ready_queue.filter
      (fun i => (jobAt s.pool i).is_deadline_missed now) =
      s.ready_queue.filter (fun i =>
        decide ((jobAt s.pool i).abs_deadline < now ∧
          completionEps < (jobAt s.pool i).remaining)) :=
    List.filter_congr (fun i _ => is_deadline_missed_eq _ now)
  have hneg : s.ready_queue.filter
      (fun i => !(jobAt s.pool i).is_deadline_missed now) =
      s.ready_queue.filter (fun i =>
        decide (¬ ((jobAt s.pool i).abs_deadline < now ∧
          completionEps < (jobAt s.pool i).remaining))) :=
    List.filter_congr (fun i _ => by
      rw [is_deadline_missed_eq, decide_not])
  refine ⟨g1, ?_, ?_, ?_⟩
  · show (Simulator.check_deadline_misses now s).ready_queue = _
    rw [Simulator.check_deadline_misses, g5, hneg, List.nil_append]
  · rw [Simulator.check_deadline_misses, g6, hpos]
  · rw [Simulator.check_deadline_misses, g7, hpos]

unseal Rat.add Rat.sub Rat.mul Rat.inv in
/-- C1 counterexample: at time 1, the code keeps the ready periodic job
whose absolute deadline equals 1 (the claim's `≤ now` would remove it) and
removes the ready incomplete aperiodic job released at 0 (the claim says
aperiodic jobs are exempt), so the specification's description of the pass
is false at this state. -/
theorem claim_C1_counterexample :
    ¬ specDeadlineCheck 1 exStateC1
        (Simulator.check_deadline_misses 1 exStateC1) := by
  decide

theorem qCeilNat_lt (x : ℚ) : x < (qCeilNat x : ℚ) + 1 := by
  unfold qCeilNat
  rw [show ((-x).num / ((-x).den : ℤ)) = ⌊-x⌋ from (Rat.floor_def).symm,
    show -⌊-x⌋ = ⌈x⌉ by rw [Int.floor_neg, neg_neg]]
  have h1 : x ≤ (⌈x⌉ : ℚ) := Int.le_ceil x
  have h2 : ((⌈x⌉ : ℤ) : ℚ) ≤ ((⌈x⌉.toNat : ℕ) : ℚ) := by
    exact_mod_cast Int.self_le_toNat ⌈x⌉
  linarith

theorem genReleasesAux_spec (horizon p : ℚ) (hp : 0 < p) :
    ∀ (n : ℕ) (r : ℚ), (horizon - r) / p < n →
      ∀ q, q ∈ genReleasesAux p n horizon r ↔
        ∃ k : ℕ, q = r + k * p ∧ q < horizon := by
  intro n
  induction n with
  | zero =>
    intro r hr q
    simp only [genReleasesAux, List.not_mem_nil, false_iff]
    rintro ⟨k, rfl, hq⟩
    have hneg : horizon - r < 0 := by
      by_contra hcon
      push_neg at hcon
      have : (0:ℚ) ≤ (horizon - r) / p := div_nonneg hcon hp.le
      simp only [Nat.cast_zero] at hr
      linarith
    have hkp : (0:ℚ) ≤ (k : ℚ) * p := mul_nonneg (Nat.cast_nonneg k) hp.le
    linarith
  | succ n ih =>
    intro r hr q
    simp only [genReleasesAux]
    by_cases hrh : r < horizon
    · rw [if_pos hrh]
      have hr' : (horizon - (r + p)) / p < n := by
      
        have heq : (horizon - (r + p)) / p = (horizon - r) / p - 1 := by
          field_simp
          ring
        push_cast at hr
        rw [heq]
        linarith
      constructor
      · intro hq
        rcases List.mem_cons.mp hq with rfl | hq'
        · exact ⟨0, by push_cast; ring, hrh⟩
        · rcases (ih (r + p) hr' q).mp hq' with ⟨k, rfl, hlt⟩
          exact ⟨k + 1, by push_cast; ring, hlt⟩
      · rintro ⟨k, rfl, hlt⟩
        cases k with
        | zero =>
          have heq : r + ((0:ℕ) : ℚ) * p = r := by push_cast; ring
          rw [heq]
          exact List.mem_cons_self _ _
        | succ k =>
          refine List.mem_cons_of_mem _ ((ih (r + p) hr' _).mpr ⟨k, ?_, hlt⟩)
          push_cast
          ring
    · rw [if_neg hrh]
      simp only [List.not_mem_nil, false_iff]
      rintro ⟨k, rfl, hq⟩
      push_neg at hrh
      have hkp : (0:ℚ) ≤ (k : ℚ) * p := mul_nonneg (Nat.cast_nonneg k) hp.le
      linarith

theorem genReleasesAux_le (horizon p : ℚ) :
    ∀ (n : ℕ) (r : ℚ), 0 < p → ∀ q ∈ genReleasesAux p n horizon r, r ≤ q := by
  intro n
  induction n with
  | zero => intro r _ q hq; simp [genReleasesAux] at hq
  | succ n ih =>
    intro r hp q hq
    simp only [genReleasesAux] at hq
    by_cases hrh : r < horizon
    · rw [if_pos hrh] at hq
      rcases List.mem_cons.mp hq with rfl | hq'
      · exact le_refl q
      · have := ih (r + p) hp q hq'
        linarith
    · rw [if_neg hrh] at hq
      simp at hq

theorem genReleasesAux_sorted (horizon p : ℚ) (hp : 0 < p) :
    ∀ (n : ℕ) (r : ℚ), List.Pairwise (· < ·) (genReleasesAux p n horizon r) := by
  intro n
  induction n with
  | zero => intro r; simp [genReleasesAux]
  | succ n ih =>
    intro r
    simp only [genReleasesAux]
    by_cases hrh : r < horizon
    · rw [if_pos hrh]
      refine List.Pairwise.cons ?_ (ih (r + p))
      intro q hq
      have := genReleasesAux_le horizon p n (r + p) hp q hq
      linarith
    · rw [if_neg hrh]
      exact List.Pairwise.nil

theorem genReleases_mem (horizon p r : ℚ) (hp : 0 < p) :
    ∀ q, q ∈ genReleases horizon p r ↔
      ∃ k : ℕ, q = r + k * p ∧ q < horizon := by
  refine genReleasesAux_spec horizon p hp _ r ?_
  have := qCeilNat_lt ((horizon - r) / p)
  push_cast
  linarith

theorem genReleases_sorted (horizon p r : ℚ) (hp : 0 < p) :
    List.Pairwise (· < ·) (genReleases horizon p r) :=
  genReleasesAux_sorted horizon p hp _ r

theorem filter_release_orderedInsert (c : ℚ) (a : Job) :
    ∀ l : List Job,
      (List.orderedInsert jobLE a l).filter
          (fun j => decide (j.current_release = c)) =
        if a.current_release = c then
          a :: l.filter (fun j => decide (j.current_release = c))
        else l.filter (fun j => decide (j.current_release = c)) := by
  intro l
  induction l with
  | nil =>
    by_cases h : a.current_release = c <;> simp [List.orderedInsert, h]
  | cons b t ih =>
    by_cases hr : jobLE a b
    · simp only [List.orderedInsert, if_pos hr]
      by_cases h : a.current_release = c <;> simp [h]
    · simp only [List.orderedInsert, if_neg hr]
      have hba : b.current_release < a.current_release := by
        unfold jobLE at hr
        exact not_le.mp hr
      by_cases h : a.current_release = c
      · have hb : ¬ (b.current_release = c) := by
          rw [← h]
          exact ne_of_lt hba
        rw [if_pos h, List.filter_cons_of_neg (by simp [hb]),
          List.filter_cons_of_neg (by simp [hb]), ih, if_pos h]
      · rw [if_neg h]
        by_cases hbc : b.current_release = c
        · rw [List.filter_cons_of_pos (by simp [hbc]),
            List.filter_cons_of_pos (by simp [hbc]), ih, if_neg h]
        · rw [List.filter_cons_of_neg (by simp [hbc]),
            List.filter_cons_of_neg (by simp [hbc]), ih, if_neg h]

theorem filter_release_insertionSort (c : ℚ) :
    ∀ l : List Job,
      (List.insertionSort jobLE l).filter
          (fun j => decide (j.current_release = c)) =
        l.filter (fun j => decide (j.current_release = c)) := by
  intro l
  induction l with
  | nil => rfl
  | cons a t ih =>
    simp only [List.insertionSort]
    rw [filter_release_orderedInsert]
    by_cases h : a.current_release = c
    · rw [if_pos h, ih, List.filter_cons_of_pos (by simp [h])]
    · rw [if_neg h, ih, List.filter_cons_of_neg (by simp [h])]

/-- C5 (amended): the generated instance list is the raw generation list —
per periodic task one job at `release_time + k·period` for every `k` with
that release strictly below the horizon (each release occurring exactly
once, strictly increasing), one job per dynamic task at time 0, one job
per aperiodic task at its release time, grouped periodic-then-dynamic-then-
aperiodic — sorted stably by release time: the output is sorted, is a
permutation of the raw list, and jobs sharing a release time keep their
raw generation order (not the original task-definition order, which
interleaves kinds). -/
theorem claim_C5_amended :
    ∀ (cfg : SimulationConfig) (ts : TaskSet),
      List.Sorted jobLE (Simulator.generate_task_instances cfg ts) ∧
      (Simulator.generate_task_instances cfg ts).Perm
        (Simulator.rawInstances cfg ts) ∧
      (∀ c : ℚ, (Simulator.generate_task_instances cfg ts).filter
          (fun j => decide (j.current_release = c)) =
        (Simulator.rawInstances cfg ts).filter
          (fun j => decide (j.current_release = c))) ∧
      (∀ t : Task, 0 < t.period →
        (∀ q, q ∈ genReleases cfg.simulation_time t.period t.release_time ↔
          ∃ k : ℕ, q = t.release_time + k * t.period ∧
            q < cfg.simulation_time) ∧
        List.Pairwise (· < ·)
          (genReleases cfg.simulation_time t.period t.release_time)) := by
  intro cfg ts
  refine ⟨List.sorted_insertionSort jobLE _, List.perm_insertionSort jobLE _,
    fun c => filter_release_insertionSort c _, fun t ht =>
      ⟨genReleases_mem _ _ _ ht, genReleases_sorted _ _ _ ht⟩⟩

unseal Rat.add Rat.sub Rat.mul Rat.inv in
/-- C5 counterexample: with the aperiodic task `A 0 1` defined before the
periodic task `P(e=1, p=10)`, both release at time 0, yet the generated
list puts the periodic job first — generation-group order, not the
original task-definition order the claim asserts for ties. -/
theorem claim_C5_counterexample :
    ¬ specOrderedByReleaseThenDefinition exTS5
        (Simulator.generate_task_instances exCfg5 exTS5) := by
  decide

/-- C5 witness: the release list of the periodic task of `exTS5` over
horizon 5 is strictly increasing. -/
theorem claim_C5_witness :
    List.Pairwise (· < ·)
      (genReleases exCfg5.simulation_time exTaskP5.period exTaskP5.release_time) :=
  ((claim_C5_amended exCfg5 exTS5).2.2.2 exTaskP5 (by decide)).2

theorem Server.reset_replenish (sv : Server) (t : ℚ) :
    (sv.replenish t).reset = sv.reset := by
  cases sv with
  | background => rfl
  | polling p =>
    simp only [Server.replenish, Server.reset, PollingServer.replenish]
    split <;> rfl
  | deferrable d =>
    simp only [Server.replenish, Server.reset, DeferrableServer.replenish]
    split <;> rfl
  | sporadic sp => rfl

theorem Server.reset_can_serve (sv : Server) (t : ℚ) :
    ((sv.can_serve t).2).reset = sv.reset := by
  cases sv <;> rfl

theorem Server.reset_consume (sv : Server) (e t : ℚ) :
    (sv.consume e t).reset = sv.reset := by
  cases sv with
  | background => rfl
  | polling p => rfl
  | deferrable d => rfl
  | sporadic sp =>
    simp only [Server.consume, Server.reset, SporadicServer.consume]
    split <;> rfl

theorem missFold_server (now : ℚ) :
    ∀ (l : List ℕ) (st : SimState),
      (l.foldl (missBody now) st).server = st.server := by
  intro l
  induction l with
  | nil => intro st; rfl
  | cons a l ih =>
    intro st
    rw [List.foldl_cons, ih]
    unfold missBody
    split <;> rfl

theorem select_next_server_reset (pol : Policy) (now : ℚ) (s : SimState) :
    ((Simulator.select_next pol now s).2).reset = s.server.reset := by
  unfold Simulator.select_next
  dsimp only
  split
  · rfl
  · split
    · exact Server.reset_can_serve _ _
    · rfl

theorem preemptPhase_server (cfg : SimulationConfig) (i : ℕ) (s : SimState) :
    (Simulator.preemptPhase cfg i s).server = s.server := by
  unfold Simulator.preemptPhase
  split
  · split <;> rfl
  · rfl

theorem startPhase_server (cfg : SimulationConfig) (i : ℕ) (s : SimState) :
    (Simulator.startPhase cfg i s).server = s.server := by
  unfold Simulator.startPhase
  split
  · dsimp only
    split <;> split <;> rfl
  · rfl

theorem execPhase_server_reset (cfg : SimulationConfig) (i : ℕ)
    (s : SimState) :
    ((Simulator.execPhase cfg i s).server).reset = s.server.reset := by
  unfold Simulator.execPhase
  dsimp only
  split <;> split <;>
    first
      | rfl
      | exact Server.reset_consume _ _ _

theorem runSelected_server_reset (cfg : SimulationConfig) (i : ℕ)
    (s : SimState) :
    ((Simulator.runSelected cfg i s).server).reset = s.server.reset := by
  unfold Simulator.runSelected
  rw [execPhase_server_reset, startPhase_server, preemptPhase_server]

theorem idlePhase_server_reset (cfg : SimulationConfig) (s : SimState) :
    ((Simulator.idlePhase cfg s).server).reset = s.server.reset := by
  unfold Simulator.idlePhase
  dsimp only
  split <;> rfl

theorem step_server_reset (cfg : SimulationConfig) (pol : Policy)
    (s0 : SimState) :
    ((Simulator.step cfg pol s0).server).reset = s0.server.reset := by
  unfold Simulator.step
  dsimp only
  set sA := Simulator.check_arrivals s0.now s0 with hA
  set sB := Simulator.check_deadline_misses sA.now sA with hB
  have hBs : sB.server = s0.server := by
    rw [hB]
    exact missFold_server _ _ _
  set sC : SimState := { sB with server := sB.server.replenish sB.now } with hC
  set sel := Simulator.select_next pol sC.now sC with hsel
  set sD : SimState := { sC with server := sel.2 } with hD
  have hDs : sD.server.reset = s0.server.reset := by
    rw [hD]
    show sel.2.reset = s0.server.reset
    rw [hsel, select_next_server_reset]
    show (sB.server.replenish sB.now).reset = s0.server.reset
    rw [Server.reset_replenish, hBs]
  cases h1 : sel.1 with
  | none =>
    show (Simulator.idlePhase cfg sD).server.reset = s0.server.reset
    rw [idlePhase_server_reset]
    exact hDs
  | some i =>
    show (Simulator.runSelected cfg i sD).server.reset = s0.server.reset
    rw [runSelected_server_reset]
    exact hDs

theorem runLoop_server_reset (cfg : SimulationConfig) (pol : Policy) :
    ∀ (fuel : ℕ) (s : SimState),
      ((Simulator.runLoop cfg pol fuel s).server).reset = s.server.reset := by
  intro fuel
  induction fuel with
  | zero => intro s; rfl
  | succ n ih =>
    intro s
    unfold Simulator.runLoop
    split
    · rw [ih, step_server_reset]
    · rfl

theorem run_server_reset (cfg : SimulationConfig) (pol : Policy) (fuel : ℕ)
    (task_instances : List Job) (server : Server) :
    ((Simulator.run cfg pol fuel task_instances server).server).reset =
      server.reset := by
  unfold Simulator.run
  exact runLoop_server_reset cfg pol fuel _

/-- C7 (amended): after a run, resetting the scheduler and the server and
re-loading the task set — regenerating fresh job instances, as
`load_task_set` does — makes a re-run produce an event log identical to
the first run's (for any server that is fresh, i.e. a fixed point of
`reset`); re-running on the same job instances without re-loading does
not, because completed jobs keep their exhausted state (see the
counterexample). -/
theorem claim_C7_reset_rerun :
    ∀ (cfg : SimulationConfig) (pol : Policy) (fuel : ℕ) (ts : TaskSet)
      (sv : Server), sv.reset = sv →
      (Simulator.run cfg pol fuel (Simulator.generate_task_instances cfg ts)
          ((Simulator.run cfg pol fuel
            (Simulator.generate_task_instances cfg ts) sv).server.reset)).schedule_events =
        (Simulator.run cfg pol fuel (Simulator.generate_task_instances cfg ts)
          sv).schedule_events := by
  intro cfg pol fuel ts sv hsv
  rw [run_server_reset, hsv]

unseal Rat.add Rat.sub Rat.mul Rat.inv in
/-- C7 witness: the reload-and-reset re-run of the one-task example
reproduces the first event log. -/
theorem claim_C7_witness :
    (Simulator.run exCfg7 Policy.RM 10
        (Simulator.generate_task_instances exCfg7 exTS7)
        ((Simulator.run exCfg7 Policy.RM 10
          (Simulator.generate_task_instances exCfg7 exTS7)
          Server.background).server.reset)).schedule_events =
      (Simulator.run exCfg7 Policy.RM 10
        (Simulator.generate_task_instances exCfg7 exTS7)
        Server.background).schedule_events :=
  claim_C7_reset_rerun exCfg7 Policy.RM 10 exTS7 Server.background rfl

unseal Rat.add Rat.sub Rat.mul Rat.inv in
/-- C7 counterexample: calling `run` again after `reset()` of the
scheduler (which `run` performs itself) and of the server, but on the same
job instances as the claim's reading permits, yields a different event
log: the first run's completed job never re-arrives, so the second run
idles throughout. -/
theorem claim_C7_counterexample :
    (Simulator.run exCfg7 Policy.RM 10 exRun7.pool
        exRun7.server.reset).schedule_events ≠ exRun7.schedule_events := by
  decide

end RTS
